import Mathlib

/-!
Verification development for the ReticulumHF beacon scheduler
(src/beacon/scheduler.py).

Byte strings are modelled as `List Nat` with each element below 256.
Python text strings that only ever cross the wire are modelled by their
UTF-8 byte sequences (for valid UTF-8 the `encode('utf-8')` /
`decode('utf-8', errors='ignore')` pair is the identity at the byte
level, and the decode call never raises).  Wall-clock readings
(`time.time()` floats) are modelled as rationals; the integer clock
`int(time.time())` used for packet timestamps is modelled as a natural
number passed in explicitly.
-/

set_option maxRecDepth 100000
set_option linter.unusedVariables false

namespace ReticulumHF

/-- Embeds `BeaconPacket._crc16`'s inner 8-step loop body: one shift step
of the CRC-16/CCITT register (polynomial 0x1021), masked to 16 bits. -/
def crcRound (crc : Nat) : Nat :=
  if crc &&& 0x8000 ≠ 0 then ((crc <<< 1) ^^^ 0x1021) &&& 0xFFFF
  else (crc <<< 1) &&& 0xFFFF

/-- Embeds one iteration of `BeaconPacket._crc16`'s outer loop:
xor the byte into the high half of the register, then run 8 shift steps. -/
def crcByteStep (crc b : Nat) : Nat :=
  crcRound^[8] (crc ^^^ (b <<< 8))

/-- Embeds `BeaconPacket._crc16` (scheduler.py lines 427-439):
CRC-16/CCITT with initial value 0xFFFF over a byte string. -/
def crc16 (data : List Nat) : Nat :=
  data.foldl crcByteStep 0xFFFF

/-- Embeds the `BeaconPacket` value: identity bytes, flags byte, message
(as its UTF-8 byte sequence) and 32-bit timestamp. -/
structure BeaconPacket where
  identity_hash : List Nat
  flags : Nat
  message : List Nat
  timestamp : Nat
  deriving Repr, DecidableEq

/-- Embeds `BeaconPacket.__init__` (scheduler.py lines 357-362): the
identity is truncated to 16 bytes, the message to 20 (Python truncates at
20 characters; at the byte level used here the two coincide throughout
this development, whose message arguments stay within 20 ASCII-length
bytes or are already at most 20 bytes), and a zero (or omitted, which
`or` treats identically) timestamp is replaced by the current clock. -/
def mkInit (clock : Nat) (identity : List Nat) (flags : Nat)
    (message : List Nat) (ts : Nat) : BeaconPacket :=
  { identity_hash := identity.take 16
    flags := flags
    message := message.take 20
    timestamp := if ts = 0 then clock else ts }

/-- Big-endian recombination of a byte list, as done by
`struct.unpack` with formats `>H` and `>I`. -/
def beFold (l : List Nat) : Nat :=
  l.foldl (fun a b => 256 * a + b) 0

/-- Embeds `struct.pack` with format `>I` (4 bytes, big-endian). -/
def pack32 (n : Nat) : List Nat :=
  [n / 2 ^ 24 % 256, n / 2 ^ 16 % 256, n / 2 ^ 8 % 256, n % 256]

/-- Embeds `struct.pack` with format `>H` (2 bytes, big-endian). -/
def pack16 (n : Nat) : List Nat :=
  [n / 2 ^ 8 % 256, n % 256]

/-- The checksummed part of `BeaconPacket.encode` (scheduler.py lines
364-391): magic, version, flags byte (with `HAS_MESSAGE` OR-ed in when a
message is present), the identity left-justified to 16 zero bytes, the
big-endian timestamp and the optional length-prefixed message. -/
def encodeBody (p : BeaconPacket) : List Nat :=
  [0x52, 0x48, 1, if p.message ≠ [] then p.flags ||| 1 else p.flags]
    ++ (p.identity_hash ++ List.replicate (16 - p.identity_hash.length) 0)
    ++ pack32 p.timestamp
    ++ (if p.message ≠ [] then (p.message.take 20).length :: p.message.take 20 else [])

/-- Embeds `BeaconPacket.encode` (scheduler.py lines 364-395): the body
followed by the big-endian CRC-16 of the body. -/
def BeaconPacket.encode (p : BeaconPacket) : List Nat :=
  encodeBody p ++ pack16 (crc16 (encodeBody p))

/-- Embeds `BeaconPacket.decode` (scheduler.py lines 397-425).  The
`clock` argument stands for `int(time.time())` inside the constructor
call, which replaces a decoded zero timestamp.  The version byte is read
by the source but never checked nor stored, so it does not appear. -/
def BeaconPacket.decode (clock : Nat) (data : List Nat) : Option BeaconPacket :=
  if data.length < 26 then none
  else if data.take 2 ≠ [0x52, 0x48] then none
  else if beFold (data.drop (data.length - 2)) ≠ crc16 (data.take (data.length - 2)) then
    none
  else
    let flags := data.getD 3 0
    let identity := (data.drop 4).take 16
    let timestamp := beFold ((data.drop 20).take 4)
    let message :=
      if flags &&& 1 ≠ 0 ∧ 26 < data.length then
        let msg_len := data.getD 24 0
        if 25 + msg_len + 2 ≤ data.length then (data.drop 25).take msg_len else []
      else []
    some (mkInit clock identity (2 * (flags / 2)) message timestamp)

/-- Flipping the k-th bit of a byte string: byte k / 8, bit k % 8. -/
def flipBit (data : List Nat) (k : Nat) : List Nat :=
  data.set (k / 8) (data.getD (k / 8) 0 ^^^ 1 <<< (k % 8))

/-- Embeds the byte-escaping loop of `FreeDVTNC2Client.send_kiss_frame`
(scheduler.py lines 304-312): FEND 0xC0 becomes FESC TFEND and FESC 0xDB
becomes FESC TFESC. -/
def escapeKiss : List Nat → List Nat
  | [] => []
  | b :: rest =>
      (if b = 0xC0 then [0xDB, 0xDC] else if b = 0xDB then [0xDB, 0xDD] else [b])
        ++ escapeKiss rest

/-- Embeds the frame assembly of `FreeDVTNC2Client.send_kiss_frame`
(scheduler.py lines 296-326): FEND, command byte 0x00, escaped payload,
closing FEND. -/
def sendKissFrame (data : List Nat) : List Nat :=
  [0xC0, 0x00] ++ escapeKiss data ++ [0xC0]

/-- Embeds the while loop of `BeaconListener._unescape_kiss` (scheduler.py
lines 698-715): a FESC followed by TFEND or TFESC decodes to FEND or FESC,
a FESC followed by any other byte passes that byte through, and a lone
trailing FESC is dropped. -/
def unescapeLoop : List Nat → List Nat
  | [] => []
  | a :: rest =>
      if a = 0xDB then
        match rest with
        | [] => []
        | b :: rest2 =>
            (if b = 0xDC then 0xC0 else if b = 0xDD then 0xDB else b) :: unescapeLoop rest2
      else a :: unescapeLoop rest

/-- Embeds `BeaconListener._unescape_kiss` (scheduler.py lines 688-716):
frames shorter than 2 bytes are rejected, frames whose command byte is
not 0x00 are rejected, and the remainder is unescaped. -/
def unescapeKiss (data : List Nat) : Option (List Nat) :=
  if data.length < 2 then none
  else if data.getD 0 0 ≠ 0 then none
  else some (unescapeLoop (data.drop 1))

/-- A guarded reading of `BeaconPacket.decode` (scheduler.py lines
397-425): every indexed access `data[i]` and each fixed-size
`struct.unpack` is explicitly bounds-checked, the outer `none` standing
for a raised exception.  Python slices and
`decode('utf-8', errors='ignore')` are total and need no guard. -/
def decodeChecked (clock : Nat) (data : List Nat) : Option (Option BeaconPacket) :=
  if data.length < 26 then some none
  else if data.take 2 ≠ [0x52, 0x48] then some none
  else if (data.drop (data.length - 2)).length ≠ 2 then none
  else if beFold (data.drop (data.length - 2)) ≠ crc16 (data.take (data.length - 2)) then
    some none
  else if ¬ 2 < data.length then none
  else if ¬ 3 < data.length then none
  else if ((data.drop 20).take 4).length ≠ 4 then none
  else
    let flags := data.getD 3 0
    let identity := (data.drop 4).take 16
    let timestamp := beFold ((data.drop 20).take 4)
    if flags &&& 1 ≠ 0 ∧ 26 < data.length then
      if ¬ 24 < data.length then none
      else
        let msg_len := data.getD 24 0
        some (some (mkInit clock identity (2 * (flags / 2))
          (if 25 + msg_len + 2 ≤ data.length then (data.drop 25).take msg_len else [])
          timestamp))
    else some (some (mkInit clock identity (2 * (flags / 2)) [] timestamp))

/-- Embeds the `DiscoveredPeer` dataclass (scheduler.py lines 446-455).
Wall-clock instants are rationals, signal levels optional rationals. -/
structure DiscoveredPeer where
  identity_hash : List Nat
  first_seen : ℚ
  last_seen : ℚ
  message : List Nat
  flags : Nat
  rx_count : Nat
  last_rx_level : Option ℚ
  deriving Repr, DecidableEq

/-- The `PeerTable._peers` dict: an insertion-ordered association list
keyed by the identity bytes (Python dicts preserve insertion order and
hold each key once). -/
abbrev PeerMap : Type := List (List Nat × DiscoveredPeer)

/-- Dictionary lookup: the entry of the first matching key. -/
def lookupPeer : PeerMap → List Nat → Option DiscoveredPeer
  | [], _ => none
  | kv :: rest, i => if kv.1 = i then some kv.2 else lookupPeer rest i

/-- The in-place mutation `PeerTable.update` performs on an existing
entry (scheduler.py lines 498-504): `last_seen` becomes now, the message
is replaced only when the packet carries a non-empty one (Python
`packet.message or peer.message`), flags are replaced unconditionally,
`rx_count` is incremented and the signal level recorded. -/
def updateEntry (peer : DiscoveredPeer) (pkt : BeaconPacket) (rx : Option ℚ) (now : ℚ) :
    DiscoveredPeer :=
  { peer with
    last_seen := now
    message := if pkt.message ≠ [] then pkt.message else peer.message
    flags := pkt.flags
    rx_count := peer.rx_count + 1
    last_rx_level := rx }

/-- The fresh entry `PeerTable.update` creates on a first sighting
(scheduler.py lines 506-515). -/
def freshPeer (pkt : BeaconPacket) (rx : Option ℚ) (now : ℚ) : DiscoveredPeer :=
  { identity_hash := pkt.identity_hash
    first_seen := now
    last_seen := now
    message := pkt.message
    flags := pkt.flags
    rx_count := 1
    last_rx_level := rx }

/-- Embeds `PeerTable.update` (scheduler.py lines 492-519): mutate the
entry in place when the identity is already known, otherwise append a
fresh entry. -/
def updatePeerMap (m : PeerMap) (pkt : BeaconPacket) (rx : Option ℚ) (now : ℚ) : PeerMap :=
  if (lookupPeer m pkt.identity_hash).isSome then
    m.map (fun kv =>
      if kv.1 = pkt.identity_hash then (kv.1, updateEntry kv.2 pkt rx now) else kv)
  else m ++ [(pkt.identity_hash, freshPeer pkt rx now)]

/-- Iterating `PeerTable.update` over a list of (packet, signal level,
clock) triples, in order. -/
def applyUpdates (m : PeerMap) (l : List (BeaconPacket × Option ℚ × ℚ)) : PeerMap :=
  l.foldl (fun acc x => updatePeerMap acc x.1 x.2.1 x.2.2) m

/-- Embeds `PeerTable.remove_stale` (scheduler.py lines 536-548): collect
the keys of the entries whose age `now - last_seen` exceeds `maxAge`,
then delete those keys one by one while counting the deletions; the
count and the mutated map are returned. -/
def removeStale (m : PeerMap) (maxAge now : ℚ) : Nat × PeerMap :=
  let stale := (m.filter (fun kv => decide (maxAge < now - kv.2.last_seen))).map Prod.fst
  stale.foldl (fun acc k => (acc.1 + 1, acc.2.filter (fun kv => decide (kv.1 ≠ k)))) (0, m)

/-- Embeds the `Mode` enum (scheduler.py lines 62-66). -/
inductive Mode where
  | beacon
  | arq
  | listening
  deriving Repr, DecidableEq

/-- The fields of `BeaconConfig` (scheduler.py lines 82-119) consumed by
the scheduling logic, with the source defaults.  Modem mode names and the
operating mode are carried as the strings the source compares. -/
structure BeaconConfig where
  beacon_hours_utc : List Nat := [0, 6, 12, 18]
  beacon_minute : Nat := 0
  beacon_duration_sec : Nat := 120
  beacon_tx_delay_sec : Nat := 10
  beacon_minutes : List Nat := []
  beacon_mode : String := "DATAC4"
  arq_mode : String := "DATAC1"
  station_id : String := ""
  beacon_message : List Nat := []
  auto_switch : Bool := true
  tx_beacon : Bool := true
  adaptive_mode : Bool := false
  snr_threshold_low : ℚ := -2
  snr_threshold_high : ℚ := 3
  operating_mode : String := "hybrid"
  deriving Repr, DecidableEq

/-- A UTC wall-clock instant as read from `datetime.utcnow()`: the hour,
minute and second components used by the scheduler loop. -/
structure UTCTime where
  hour : Nat
  minute : Nat
  second : Nat
  deriving Repr, DecidableEq

/-- Embeds the in-window computation of `BeaconScheduler._scheduler_loop`
(scheduler.py lines 850-869): legacy minute-based scheduling when
`beacon_minutes` is non-empty, hour-based scheduling otherwise. -/
def inBeaconWindow (cfg : BeaconConfig) (now : UTCTime) : Bool :=
  if cfg.beacon_minutes ≠ [] then
    cfg.auto_switch && decide (now.minute ∈ cfg.beacon_minutes)
      && decide (now.second < cfg.beacon_duration_sec)
  else
    cfg.auto_switch && decide (now.hour ∈ cfg.beacon_hours_utc)
      && (now.minute == cfg.beacon_minute)
      && decide (now.second < cfg.beacon_duration_sec)

/-- The externally visible, state-changing modem commands the scheduler
issues; pure queries (PING, STATUS, LEVELS) are answered by `ModemEnv`
instead of appearing in the trace. -/
inductive Command where
  | setMode (mode : String)
  | txWindow (seconds : Nat)
  | sendFrame (bytes : List Nat)
  deriving Repr, DecidableEq

/-- The environment one scheduler step consumes: whether the mode switch
command succeeds, whether the channel reports clear after the listen
delay, the current RX level and reported modem mode for the adaptive
sub-step, and the integer clock used when building a packet. -/
structure ModemEnv where
  setModeOk : Bool
  channelClear : Bool
  rxLevel : Option ℚ
  currentMode : Option String
  clock : Nat
  deriving Repr, DecidableEq

/-- The value of one hexadecimal digit, as accepted by `bytes.fromhex`. -/
def hexVal (c : Char) : Option Nat :=
  if '0' ≤ c ∧ c ≤ '9' then some (c.toNat - 48)
  else if 'a' ≤ c ∧ c ≤ 'f' then some (c.toNat - 87)
  else if 'A' ≤ c ∧ c ≤ 'F' then some (c.toNat - 55)
  else none

/-- Pairs of hex digits to bytes; malformed input yields none. -/
def hexDecodeList : List Char → Option (List Nat)
  | [] => some []
  | [_] => none
  | c1 :: c2 :: rest =>
      match hexVal c1, hexVal c2, hexDecodeList rest with
      | some h, some l, some bs => some ((16 * h + l) :: bs)
      | _, _, _ => none

/-- Embeds `bytes.fromhex` as used on `station_id` (scheduler.py line
941). -/
def hexDecode (s : String) : Option (List Nat) :=
  hexDecodeList s.toList

/-- Embeds `BeaconScheduler._transmit_beacon` (scheduler.py lines
934-962): an empty or invalid hex station id aborts silently; otherwise
one beacon packet carrying the ACCEPTS_LINKS flag (0x04) and the
configured message is built, encoded, KISS-framed and sent. -/
def transmitBeacon (cfg : BeaconConfig) (env : ModemEnv) : List Command :=
  if cfg.station_id = "" then []
  else
    match hexDecode cfg.station_id with
    | none => []
    | some identity =>
        [Command.sendFrame (sendKissFrame
          (BeaconPacket.encode (mkInit env.clock identity 4 cfg.beacon_message 0)))]

/-- Embeds `BeaconScheduler._enter_beacon_mode` (scheduler.py lines
883-916) as (new recorded mode, issued commands): internet-only
operation returns before doing anything; hybrid operation first opens a
transmit window; the beacon mode-switch command is issued and, when it
fails, the recorded mode stays unchanged; otherwise the mode becomes
BEACON and, with transmission enabled and a clear channel after the
listen-before-transmit delay, one beacon is transmitted. -/
def enterBeaconMode (cfg : BeaconConfig) (env : ModemEnv) (cur : Mode) : Mode × List Command :=
  if cfg.operating_mode = "internet_only" then (cur, [])
  else
    let cmds :=
      (if cfg.operating_mode = "hybrid" then [Command.txWindow cfg.beacon_duration_sec]
       else []) ++ [Command.setMode cfg.beacon_mode]
    if !env.setModeOk then (cur, cmds)
    else if cfg.tx_beacon then
      if env.channelClear then (Mode.beacon, cmds ++ transmitBeacon cfg env)
      else (Mode.beacon, cmds)
    else (Mode.beacon, cmds)

/-- Embeds `BeaconScheduler._enter_arq_mode` (scheduler.py lines
918-932): the ARQ mode-switch command is issued; on failure the recorded
mode stays unchanged. -/
def enterArqMode (cfg : BeaconConfig) (env : ModemEnv) (cur : Mode) : Mode × List Command :=
  if !env.setModeOk then (cur, [Command.setMode cfg.arq_mode])
  else (Mode.arq, [Command.setMode cfg.arq_mode])

/-- Embeds `BeaconScheduler._check_adaptive_mode` (scheduler.py lines
964-987): estimate SNR as RX level + 35 and switch between DATAC3 and
DATAC1 at the configured thresholds, only when not already selected. -/
def checkAdaptive (cfg : BeaconConfig) (env : ModemEnv) : List Command :=
  match env.rxLevel with
  | none => []
  | some rx =>
      match env.currentMode with
      | none => []
      | some cur =>
          if rx + 35 < cfg.snr_threshold_low then
            if cur ≠ "DATAC3" then [Command.setMode "DATAC3"] else []
          else if rx + 35 > cfg.snr_threshold_high then
            if cur ≠ "DATAC1" then [Command.setMode "DATAC1"] else []
          else []

/-- One iteration of `BeaconScheduler._scheduler_loop` (scheduler.py
lines 848-881) without the sleep: evaluate the window predicate,
dispatch the mode transition, then run the adaptive sub-step against the
possibly updated mode. -/
def schedulerStep (cfg : BeaconConfig) (env : ModemEnv) (cur : Mode) (now : UTCTime) :
    Mode × List Command :=
  let w := inBeaconWindow cfg now
  let next :=
    if w && !(cur == Mode.beacon) then enterBeaconMode cfg env cur
    else if !w && (cur == Mode.beacon) then enterArqMode cfg env cur
    else (cur, [])
  if cfg.adaptive_mode && (next.1 == Mode.arq) then (next.1, next.2 ++ checkAdaptive cfg env)
  else next

/-! ### Theorems -/

theorem crcRound_eq (c : Nat) :
    crcRound c = ((c <<< 1) ^^^ (if c &&& 0x8000 ≠ 0 then 0x1021 else 0)) &&& 0xFFFF := by
  unfold crcRound
  by_cases h : c &&& 0x8000 ≠ 0 <;> simp [h]

theorem shiftLeft_xor_distrib (a b n : Nat) : (a ^^^ b) <<< n = (a <<< n) ^^^ (b <<< n) := by
  apply Nat.eq_of_testBit_eq
  intro i
  simp only [Nat.testBit_shiftLeft, Nat.testBit_xor]
  cases hd : decide (n ≤ i) <;> simp

theorem topbit_test (a : Nat) : (a &&& 0x8000 ≠ 0) ↔ a.testBit 15 = true := by
  rw [show (0x8000 : Nat) = 2 ^ 15 from by norm_num, Nat.and_two_pow]
  cases h : a.testBit 15 <;> simp

theorem xor_xor_comm4 (x y g1 g2 : Nat) :
    (x ^^^ y) ^^^ (g1 ^^^ g2) = (x ^^^ g1) ^^^ (y ^^^ g2) := by
  apply Nat.eq_of_testBit_eq
  intro i
  simp only [Nat.testBit_xor]
  cases x.testBit i <;> cases y.testBit i <;> cases g1.testBit i <;> cases g2.testBit i <;> rfl

theorem crcRound_linear (a b : Nat) : crcRound (a ^^^ b) = crcRound a ^^^ crcRound b := by
  rw [crcRound_eq, crcRound_eq, crcRound_eq, ← Nat.and_xor_distrib_right]
  congr 1
  have hg : (if (a ^^^ b) &&& 0x8000 ≠ 0 then (0x1021 : Nat) else 0)
      = (if a &&& 0x8000 ≠ 0 then (0x1021 : Nat) else 0)
        ^^^ (if b &&& 0x8000 ≠ 0 then (0x1021 : Nat) else 0) := by
    simp only [topbit_test, Nat.testBit_xor]
    by_cases ha : a.testBit 15 = true <;> by_cases hb : b.testBit 15 = true <;>
      simp [ha, hb]
  rw [shiftLeft_xor_distrib, hg]
  exact xor_xor_comm4 _ _ _ _

theorem crcRound_lt (c : Nat) : crcRound c < 65536 := by
  rw [crcRound_eq]
  have h := Nat.and_le_right (n := (c <<< 1) ^^^ (if c &&& 0x8000 ≠ 0 then 0x1021 else 0))
    (m := 0xFFFF)
  omega

theorem crcRound_ne_zero (d : Nat) (hlt : d < 65536) (hne : d ≠ 0) : crcRound d ≠ 0 := by
  rw [crcRound_eq]
  by_cases h : d &&& 0x8000 ≠ 0
  · simp only [if_pos h]
    intro h0
    have hodd : ((d <<< 1) ^^^ 0x1021) % 2 = 1 := by
      have hb : ((d <<< 1) ^^^ 0x1021).testBit 0 = true := by
        rw [Nat.testBit_xor, Nat.testBit_shiftLeft]
        norm_num
      rw [Nat.testBit_zero, decide_eq_true_eq] at hb
      exact hb
    have hmask : ((d <<< 1) ^^^ 0x1021) &&& 0xFFFF = ((d <<< 1) ^^^ 0x1021) % 65536 := by
      rw [show (0xFFFF : Nat) = 2 ^ 16 - 1 from by norm_num,
        Nat.and_pow_two_sub_one_eq_mod]
    rw [hmask] at h0
    omega
  · simp only [if_neg h]
    push_neg at h
    have htop : d.testBit 15 = false := by
      by_contra hxx
      rw [Bool.not_eq_false] at hxx
      rw [← topbit_test] at hxx
      exact hxx h
    rw [Nat.testBit_to_div_mod] at htop
    simp only [decide_eq_false_iff_not] at htop
    norm_num at htop
    have hd15 : d < 32768 := by omega
    intro h0
    rw [Nat.shiftLeft_eq, show (0xFFFF : Nat) = 2 ^ 16 - 1 from by norm_num,
      Nat.and_pow_two_sub_one_eq_mod] at h0
    norm_num at h0
    omega

theorem crcRound_iter_ne_zero (k d : Nat) (hlt : d < 65536) (hne : d ≠ 0) :
    crcRound^[k] d ≠ 0 ∧ crcRound^[k] d < 65536 := by
  induction k generalizing d with
  | zero => exact ⟨hne, hlt⟩
  | succ k ih =>
      rw [Function.iterate_succ_apply]
      exact ih (crcRound d) (crcRound_lt d) (crcRound_ne_zero d hlt hne)

theorem crcRound_iter_linear (k a b : Nat) :
    crcRound^[k] (a ^^^ b) = crcRound^[k] a ^^^ crcRound^[k] b := by
  induction k generalizing a b with
  | zero => rfl
  | succ k ih =>
      rw [Function.iterate_succ_apply, Function.iterate_succ_apply,
        Function.iterate_succ_apply, crcRound_linear, ih]

theorem crcByteStep_xor_state (c d b : Nat) :
    crcByteStep (c ^^^ d) b = crcByteStep c b ^^^ crcRound^[8] d := by
  unfold crcByteStep
  rw [show (c ^^^ d) ^^^ (b <<< 8) = (c ^^^ b <<< 8) ^^^ d from by
    rw [Nat.xor_assoc, Nat.xor_comm d, ← Nat.xor_assoc], crcRound_iter_linear]

theorem crcByteStep_xor_byte (c b e : Nat) :
    crcByteStep c (b ^^^ e) = crcByteStep c b ^^^ crcRound^[8] (e <<< 8) := by
  unfold crcByteStep
  rw [shiftLeft_xor_distrib, ← Nat.xor_assoc, crcRound_iter_linear]

theorem foldl_crc_xor (l : List Nat) (c d : Nat) :
    l.foldl crcByteStep (c ^^^ d) = l.foldl crcByteStep c ^^^ crcRound^[8 * l.length] d := by
  induction l generalizing c d with
  | nil => simp
  | cons b l ih =>
      simp only [List.foldl_cons, List.length_cons]
      rw [crcByteStep_xor_state, ih,
        show 8 * (l.length + 1) = 8 * l.length + 8 from by omega,
        Function.iterate_add_apply]

theorem xor_cancel_self (a t : Nat) (h : a ^^^ t = a) : t = 0 := by
  have h2 : a ^^^ (a ^^^ t) = a ^^^ a := by rw [h]
  rwa [← Nat.xor_assoc, Nat.xor_self, Nat.xor_comm 0 t, Nat.xor_zero] at h2

theorem crc16_flip_byte (l1 l2 : List Nat) (b e : Nat) (he0 : e ≠ 0) (helt : e < 256) :
    crc16 (l1 ++ (b ^^^ e) :: l2) ≠ crc16 (l1 ++ b :: l2) := by
  unfold crc16
  rw [List.foldl_append, List.foldl_append, List.foldl_cons, List.foldl_cons,
    crcByteStep_xor_byte, foldl_crc_xor]
  intro hEq
  have hcomb : crcRound^[8 * l2.length] (crcRound^[8] (e <<< 8))
      = crcRound^[8 * l2.length + 8] (e <<< 8) := by
    rw [Function.iterate_add_apply]
  rw [hcomb] at hEq
  have h8lt : e <<< 8 < 65536 := by rw [Nat.shiftLeft_eq]; omega
  have h80 : e <<< 8 ≠ 0 := by rw [Nat.shiftLeft_eq]; omega
  have hnz := (crcRound_iter_ne_zero (8 * l2.length + 8) (e <<< 8) h8lt h80).1
  exact hnz (xor_cancel_self _ _ hEq)

theorem crc16_set_ne (l : List Nat) (i : Nat) (hi : i < l.length) (e : Nat)
    (he0 : e ≠ 0) (helt : e < 256) :
    crc16 (l.set i (l.getD i 0 ^^^ e)) ≠ crc16 l := by
  have hset := List.set_eq_take_cons_drop (l.getD i 0 ^^^ e) hi
  have hgetd : l.getD i 0 = l[i] := by
    rw [List.getD_eq_getElem?_getD, List.getElem?_eq_getElem hi]
    rfl
  have hl : l = l.take i ++ l.getD i 0 :: l.drop (i + 1) := by
    conv_lhs => rw [← List.take_append_drop i l]
    rw [List.drop_eq_getElem_cons hi, hgetd]
  rw [hset]
  conv_rhs => rw [hl]
  exact crc16_flip_byte _ _ _ _ he0 helt

theorem crcByteStep_lt (c b : Nat) : crcByteStep c b < 65536 := by
  unfold crcByteStep
  rw [show (8 : Nat) = 7 + 1 from rfl, Function.iterate_succ_apply']
  exact crcRound_lt _

theorem foldl_crc_lt (l : List Nat) (c : Nat) (hc : c < 65536) :
    l.foldl crcByteStep c < 65536 := by
  induction l generalizing c with
  | nil => exact hc
  | cons b l ih => exact ih _ (crcByteStep_lt _ _)

theorem crc16_lt (l : List Nat) : crc16 l < 65536 :=
  foldl_crc_lt _ _ (by norm_num)

theorem beFold_pack16 (n : Nat) (h : n < 65536) : beFold (pack16 n) = n := by
  simp only [beFold, pack16, List.foldl_cons, List.foldl_nil]
  norm_num
  omega

theorem beFold_pack32 (n : Nat) (h : n < 2 ^ 32) : beFold (pack32 n) = n := by
  simp only [beFold, pack32, List.foldl_cons, List.foldl_nil]
  norm_num
  omega

theorem getD_zero_drop (l : List Nat) (n d : Nat) : l.getD n d = (l.drop n).getD 0 d := by
  induction l generalizing n with
  | nil => simp
  | cons a l ih =>
      cases n with
      | zero => simp
      | succ n => simp [ih n]

theorem or_one_div_two (n : Nat) : (n ||| 1) / 2 = n / 2 := by
  apply Nat.eq_of_testBit_eq
  intro i
  rw [Nat.testBit_div_two, Nat.testBit_div_two, Nat.testBit_or,
    show (1 : Nat) = 2 ^ 0 from rfl, Nat.testBit_two_pow]
  simp

theorem or_one_odd (n : Nat) : (n ||| 1) &&& 1 = 1 := by
  rw [Nat.and_one_is_mod]
  have hb : (n ||| 1).testBit 0 = true := by
    rw [Nat.testBit_or]
    simp
  rw [Nat.testBit_zero, decide_eq_true_eq] at hb
  exact hb

/-- Core round-trip lemma: decoding an encoded packet recovers the
padded identity, the flags with bit 0 cleared, the message and the
timestamp, whenever the packet fields satisfy the constructor invariants
(identity at most 16 bytes, message at most 20 bytes, 32-bit nonzero
timestamp). -/
theorem decode_encode (p : BeaconPacket) (hid : p.identity_hash.length ≤ 16)
    (hmsg : p.message.length ≤ 20) (hts : p.timestamp < 2 ^ 32) (hts0 : p.timestamp ≠ 0)
    (clock2 : Nat) :
    BeaconPacket.decode clock2 p.encode =
      some { identity_hash := p.identity_hash ++ List.replicate (16 - p.identity_hash.length) 0
             flags := 2 * (p.flags / 2)
             message := p.message
             timestamp := p.timestamp } := by
  set idp := p.identity_hash ++ List.replicate (16 - p.identity_hash.length) 0 with hidp
  have hidlen : idp.length = 16 := by
    rw [hidp]
    simp
    omega
  set c := crc16 (encodeBody p) with hc
  have hclt : c < 65536 := crc16_lt _
  have henc : p.encode = encodeBody p ++ pack16 c := by
    rw [BeaconPacket.encode]
  have hlen2 : p.encode.length = (encodeBody p).length + 2 := by
    rw [henc]
    simp [pack16]
  have hn2 : p.encode.length - 2 = (encodeBody p).length := by omega
  have htake : p.encode.take (p.encode.length - 2) = encodeBody p := by
    rw [hn2, henc]
    exact List.take_left' rfl
  have hdrop : p.encode.drop (p.encode.length - 2) = pack16 c := by
    rw [hn2, henc]
    exact List.drop_left' rfl
  have hcrcok : beFold (p.encode.drop (p.encode.length - 2))
      = crc16 (p.encode.take (p.encode.length - 2)) := by
    rw [htake, hdrop, beFold_pack16 c hclt, hc]
  by_cases hm : p.message = []
  · -- no message: the body is exactly 24 bytes long
    have hbody : encodeBody p = 0x52 :: 0x48 :: 1 :: p.flags :: (idp ++ pack32 p.timestamp) := by
      simp [encodeBody, hm, ← hidp]
    have hblen : (encodeBody p).length = 24 := by
      rw [hbody]
      simp [hidlen, pack32]
    have hlen26 : p.encode.length = 26 := by omega
    have hdata : p.encode = 0x52 :: 0x48 :: 1 :: p.flags ::
        (idp ++ (pack32 p.timestamp ++ pack16 c)) := by
      rw [henc, hbody]
      simp [List.append_assoc]
    have htake2 : p.encode.take 2 = [0x52, 0x48] := by
      rw [hdata]
      rfl
    have hflags : p.encode.getD 3 0 = p.flags := by
      rw [hdata]
      simp
    have hident : (p.encode.drop 4).take 16 = idp := by
      rw [hdata]
      simp only [List.drop_succ_cons, List.drop_zero]
      apply List.take_left'
      exact hidlen
    have hdrop20 : p.encode.drop 20 = pack32 p.timestamp ++ pack16 c := by
      have h4 : p.encode.drop 4 = idp ++ (pack32 p.timestamp ++ pack16 c) := by
        rw [hdata]
        simp only [List.drop_succ_cons, List.drop_zero]
      have : p.encode.drop 20 = (p.encode.drop 4).drop 16 := by
        rw [List.drop_drop]
      rw [this, h4, List.drop_left' hidlen]
    have hts4 : (p.encode.drop 20).take 4 = pack32 p.timestamp := by
      rw [hdrop20]
      apply List.take_left'
      simp [pack32]
    rw [BeaconPacket.decode]
    rw [if_neg (by omega), if_neg (by rw [htake2]; simp), if_neg (by rw [hcrcok]; simp)]
    simp only [hflags, hident, hts4, hlen26, beFold_pack32 p.timestamp hts]
    norm_num
    simp [mkInit, List.take_of_length_le (le_of_eq hidlen), hts0, hm, or_one_div_two]
  · -- message present: the body carries a length byte and the message
    have hmt : p.message.take 20 = p.message := List.take_of_length_le hmsg
    have hbody : encodeBody p = 0x52 :: 0x48 :: 1 :: (p.flags ||| 1) ::
        (idp ++ (pack32 p.timestamp ++ (p.message.length :: p.message))) := by
      simp [encodeBody, hm, ← hidp, hmt, List.append_assoc]
    have hblen : (encodeBody p).length = 25 + p.message.length := by
      rw [hbody]
      simp [hidlen, pack32]
      omega
    have hlen27 : p.encode.length = 27 + p.message.length := by omega
    have hdata : p.encode = 0x52 :: 0x48 :: 1 :: (p.flags ||| 1) ::
        (idp ++ (pack32 p.timestamp ++ ((p.message.length :: p.message) ++ pack16 c))) := by
      rw [henc, hbody]
      simp [List.append_assoc]
    have htake2 : p.encode.take 2 = [0x52, 0x48] := by
      rw [hdata]
      rfl
    have hflags : p.encode.getD 3 0 = p.flags ||| 1 := by
      rw [hdata]
      simp
    have hident : (p.encode.drop 4).take 16 = idp := by
      rw [hdata]
      simp only [List.drop_succ_cons, List.drop_zero]
      apply List.take_left'
      exact hidlen
    have hdrop20 : p.encode.drop 20 = pack32 p.timestamp
        ++ ((p.message.length :: p.message) ++ pack16 c) := by
      have h4 : p.encode.drop 4 = idp
          ++ (pack32 p.timestamp ++ ((p.message.length :: p.message) ++ pack16 c)) := by
        rw [hdata]
        simp only [List.drop_succ_cons, List.drop_zero]
      have : p.encode.drop 20 = (p.encode.drop 4).drop 16 := by
        rw [List.drop_drop]
      rw [this, h4, List.drop_left' hidlen]
    have hts4 : (p.encode.drop 20).take 4 = pack32 p.timestamp := by
      rw [hdrop20]
      apply List.take_left'
      simp [pack32]
    have hdrop24 : p.encode.drop 24 = (p.message.length :: p.message) ++ pack16 c := by
      have : p.encode.drop 24 = (p.encode.drop 20).drop 4 := by
        rw [List.drop_drop]
      rw [this, hdrop20]
      apply List.drop_left'
      simp [pack32]
    have hmlen : p.encode.getD 24 0 = p.message.length := by
      rw [getD_zero_drop, hdrop24]
      simp
    have hdrop25 : p.encode.drop 25 = p.message ++ pack16 c := by
      have : p.encode.drop 25 = (p.encode.drop 24).drop 1 := by
        rw [List.drop_drop]
      rw [this, hdrop24]
      simp
    have hmsgex : (p.encode.drop 25).take p.message.length = p.message := by
      rw [hdrop25]
      exact List.take_left' rfl
    rw [BeaconPacket.decode]
    rw [if_neg (by omega), if_neg (by rw [htake2]; simp), if_neg (by rw [hcrcok]; simp)]
    simp only [hflags, hident, hts4, hmlen, hmsgex, hlen27,
      beFold_pack32 p.timestamp hts, or_one_odd, or_one_div_two]
    have hcond : ((1 : Nat) ≠ 0 ∧ 26 < 27 + p.message.length) := by omega
    rw [if_pos hcond, if_pos (by omega)]
    simp [mkInit, List.take_of_length_le (le_of_eq hidlen), hts0, hmt]

/-- C1 (amended): for every identity byte string, flags value, message of
at most 20 bytes and 32-bit timestamp, decoding the encoding of a
BeaconPacket built from them (with a positive 32-bit construction clock)
succeeds and yields the identity truncated or zero-padded to 16 bytes,
the flags with the HAS_MESSAGE bit cleared, the same message, and the
same timestamp provided the timestamp was nonzero; a zero timestamp is
replaced at construction time by the clock, which is what decoding then
returns. -/
theorem beacon_roundtrip (id : List Nat) (fl : Nat) (msg : List Nat) (ts clock clock2 : Nat)
    (hmsg : msg.length ≤ 20) (hts : ts < 2 ^ 32)
    (hclock0 : 0 < clock) (hclock : clock < 2 ^ 32) :
    BeaconPacket.decode clock2 (BeaconPacket.encode (mkInit clock id fl msg ts)) =
      some { identity_hash := id.take 16 ++ List.replicate (16 - id.length) 0
             flags := 2 * (fl / 2)
             message := msg
             timestamp := if ts = 0 then clock else ts } := by
  have hmt : msg.take 20 = msg := List.take_of_length_le hmsg
  have htsv : (if ts = 0 then clock else ts) < 2 ^ 32 := by split <;> omega
  have htsv0 : (if ts = 0 then clock else ts) ≠ 0 := by split <;> omega
  have h := decode_encode (mkInit clock id fl msg ts) (by simp [mkInit])
    (by simp [mkInit]) (by simp only [mkInit]; exact htsv) (by simp only [mkInit]; exact htsv0)
    clock2
  have hcount : 16 - (id.take 16).length = 16 - id.length := by
    simp
    omega
  simp only [mkInit] at h ⊢
  rw [hcount, hmt] at h
  rw [hmt]
  exact h

/-- C1 counterexample to the claim as stated: with input timestamp 0
(a valid 32-bit unsigned value) the constructor substitutes the current
clock, so decoding the encoding does not yield the original timestamp. -/
theorem beacon_roundtrip_ts_zero_cx :
    (BeaconPacket.decode 2000 (BeaconPacket.encode
      (mkInit 1000 (List.replicate 16 1) 0 [] 0))).map BeaconPacket.timestamp ≠ some 0 := by
  decide

/-- Witness for the amended round-trip theorem at a concrete input. -/
theorem beacon_roundtrip_witness :
    BeaconPacket.decode 9 (BeaconPacket.encode (mkInit 5 [1, 2, 3] 7 [65] 0)) =
      some { identity_hash := [1, 2, 3] ++ List.replicate 13 0
             flags := 6
             message := [65]
             timestamp := 5 } := by
  have h := beacon_roundtrip [1, 2, 3] 7 [65] 0 5 9 (by decide) (by decide)
    (by decide) (by decide)
  simpa using h

theorem getD_append_left {A B : List Nat} {n : Nat} (d : Nat) (h : n < A.length) :
    (A ++ B).getD n d = A.getD n d := by
  induction A generalizing n with
  | nil => simp at h
  | cons a A ih =>
      cases n with
      | zero => simp
      | succ n =>
          simp only [List.length_cons] at h
          simp only [List.cons_append, List.getD_cons_succ]
          exact ih (by omega)

theorem getD_append_right_ge {A B : List Nat} {n : Nat} (d : Nat) (h : A.length ≤ n) :
    (A ++ B).getD n d = B.getD (n - A.length) d := by
  induction A generalizing n with
  | nil => simp
  | cons a A ih =>
      cases n with
      | zero => simp at h
      | succ n =>
          simp only [List.length_cons] at h
          simp only [List.cons_append, List.getD_cons_succ, List.length_cons]
          rw [ih (by omega)]
          congr 1
          omega

theorem encodeBody_length_ge (p : BeaconPacket) : 24 ≤ (encodeBody p).length := by
  simp [encodeBody, pack32]
  omega

theorem encodeBody_take_two (p : BeaconPacket) : (encodeBody p).take 2 = [0x52, 0x48] := rfl

/-- C2: flipping any single bit of a validly encoded beacon packet makes
decode return nothing: a flip in the stored checksum no longer matches
the body, and a flip in the body either breaks the magic marker or
changes the computed CRC away from the stored one. -/
theorem single_bit_flip_decode_none (p : BeaconPacket) (clock k : Nat)
    (hk : k < 8 * (BeaconPacket.encode p).length) :
    BeaconPacket.decode clock (flipBit (BeaconPacket.encode p) k) = none := by
  set body := encodeBody p with hbody
  set c := crc16 body with hc
  have hclt : c < 65536 := crc16_lt _
  have henc : p.encode = body ++ pack16 c := by
    rw [BeaconPacket.encode]
  have hb24 : 24 ≤ body.length := encodeBody_length_ge p
  have hlen : p.encode.length = body.length + 2 := by
    rw [henc]
    simp [pack16]
  set i := k / 8 with hi
  set e := (1 : Nat) <<< (k % 8) with he
  have he0 : e ≠ 0 := by
    rw [he, Nat.shiftLeft_eq]
    positivity
  have helt : e < 256 := by
    rw [he, Nat.shiftLeft_eq]
    have h8 : k % 8 < 8 := Nat.mod_lt _ (by omega)
    calc 1 * 2 ^ (k % 8) ≤ 1 * 2 ^ 7 := by
          apply Nat.mul_le_mul_left
          exact Nat.pow_le_pow_right (by omega) (by omega)
      _ < 256 := by norm_num
  have hin : i < p.encode.length := by
    rw [hi]
    omega
  have hflip : flipBit p.encode k = p.encode.set i (p.encode.getD i 0 ^^^ e) := rfl
  have hfliplen : (flipBit p.encode k).length = p.encode.length := by
    rw [hflip]
    simp
  have hnf : (flipBit p.encode k).length - 2 = body.length := by
    rw [hfliplen]
    omega
  by_cases hib : i < body.length
  · -- the flipped byte lies in the checksummed body
    have hsplit : flipBit p.encode k = body.set i (body.getD i 0 ^^^ e) ++ pack16 c := by
      rw [hflip, henc, getD_append_left 0 hib, List.set_append_left _ _ hib]
    have hdropf : (flipBit p.encode k).drop ((flipBit p.encode k).length - 2) = pack16 c := by
      rw [hnf, hsplit]
      exact List.drop_left' (by simp)
    have htakef : (flipBit p.encode k).take ((flipBit p.encode k).length - 2)
        = body.set i (body.getD i 0 ^^^ e) := by
      rw [hnf, hsplit]
      exact List.take_left' (by simp)
    rw [BeaconPacket.decode]
    rw [if_neg (by rw [hfliplen]; omega)]
    by_cases hmagic : (flipBit p.encode k).take 2 ≠ [0x52, 0x48]
    · rw [if_pos hmagic]
    · rw [if_neg hmagic]
      have hcond : beFold ((flipBit p.encode k).drop ((flipBit p.encode k).length - 2))
          ≠ crc16 ((flipBit p.encode k).take ((flipBit p.encode k).length - 2)) := by
        rw [hdropf, htakef, beFold_pack16 c hclt, hc]
        exact fun hE => crc16_set_ne body i hib e he0 helt hE.symm
      rw [if_pos hcond]
  · -- the flipped byte lies in the stored 2-byte checksum
    push_neg at hib
    have hsplit : flipBit p.encode k
        = body ++ (pack16 c).set (i - body.length) ((pack16 c).getD (i - body.length) 0 ^^^ e) := by
      rw [hflip, henc, getD_append_right_ge 0 hib, List.set_append_right _ _ hib]
    have hij : i - body.length = 0 ∨ i - body.length = 1 := by omega
    have hdropf : (flipBit p.encode k).drop ((flipBit p.encode k).length - 2)
        = (pack16 c).set (i - body.length) ((pack16 c).getD (i - body.length) 0 ^^^ e) := by
      rw [hnf, hsplit]
      exact List.drop_left' rfl
    have htakef : (flipBit p.encode k).take ((flipBit p.encode k).length - 2) = body := by
      rw [hnf, hsplit]
      exact List.take_left' rfl
    have hmagicf : (flipBit p.encode k).take 2 = [0x52, 0x48] := by
      rw [hsplit, List.take_append_of_le_length (by omega), ← encodeBody_take_two p, hbody]
    rw [BeaconPacket.decode]
    rw [if_neg (by rw [hfliplen]; omega), if_neg (by rw [hmagicf]; simp)]
    have hcond : beFold ((flipBit p.encode k).drop ((flipBit p.encode k).length - 2))
        ≠ crc16 ((flipBit p.encode k).take ((flipBit p.encode k).length - 2)) := by
      rw [hdropf, htakef, ← hc]
      rcases hij with h0 | h1
      · rw [h0]
        simp only [pack16, List.set_cons_zero, List.getD_cons_zero]
        simp only [beFold, List.foldl_cons, List.foldl_nil]
        intro hEq
        have hx : c / 2 ^ 8 % 256 ^^^ e = c / 2 ^ 8 % 256 := by omega
        exact he0 (xor_cancel_self _ _ hx)
      · rw [h1]
        simp only [pack16, List.set_cons_succ, List.set_cons_zero, List.getD_cons_succ,
          List.getD_cons_zero]
        simp only [beFold, List.foldl_cons, List.foldl_nil]
        intro hEq
        have hx : c % 256 ^^^ e = c % 256 := by omega
        exact he0 (xor_cancel_self _ _ hx)
    rw [if_pos hcond]

/-- Witness for the single-bit corruption theorem at a concrete packet
and bit position. -/
theorem single_bit_flip_decode_none_witness :
    BeaconPacket.decode 3 (flipBit (BeaconPacket.encode (mkInit 1 [5, 6] 4 [] 77)) 17) = none := by
  have h := single_bit_flip_decode_none (mkInit 1 [5, 6] 4 [] 77) 3 17 (by decide)
  exact h

theorem escapeKiss_ne_nil (data : List Nat) (h : data ≠ []) : escapeKiss data ≠ [] := by
  match data with
  | [] => exact absurd rfl h
  | b :: rest =>
      by_cases hc : b = 0xC0
      · simp [escapeKiss, hc]
      · by_cases hd : b = 0xDB <;> simp [escapeKiss, hc, hd]

theorem unescapeLoop_escapeKiss (data : List Nat) :
    unescapeLoop (escapeKiss data) = data := by
  induction data with
  | nil => rfl
  | cons b rest ih =>
      by_cases hc : b = 0xC0
      · simp [escapeKiss, hc, unescapeLoop, ih]
      · by_cases hd : b = 0xDB
        · simp [escapeKiss, hc, hd, unescapeLoop, ih]
        · cases hE : escapeKiss rest with
          | nil =>
              have hr : rest = [] := by
                by_contra hx
                exact escapeKiss_ne_nil rest hx hE
              subst hr
              simp [escapeKiss, hc, hd, unescapeLoop]
          | cons x xs =>
              simp only [escapeKiss, hc, hd, if_false, List.cons_append, List.nil_append,
                if_neg hc, if_neg hd, hE]
              simp only [unescapeLoop, if_neg hd]
              rw [← hE, ih]

/-- C8 counterexample to the claim as stated: for the empty payload the
encoder emits the frame FEND 0x00 FEND, whose inner portion is the single
command byte; the unescape function rejects anything shorter than 2
bytes, so the empty byte string does not round-trip. -/
theorem kiss_roundtrip_empty_cx :
    ¬ unescapeKiss (((sendKissFrame []).drop 1).dropLast) = some [] := by
  decide

/-- C8 (amended): for every non-empty byte string, including ones holding
the boundary byte 0xC0 and the escape byte 0xDB anywhere, unescaping the
frame interior produced by the frame encoder reproduces the data. -/
theorem kiss_roundtrip (data : List Nat) (hne : data ≠ [])
    (hbytes : ∀ b ∈ data, b < 256) :
    unescapeKiss (((sendKissFrame data).drop 1).dropLast) = some data := by
  have hframe : ((sendKissFrame data).drop 1).dropLast = 0x00 :: escapeKiss data := by
    show (0x00 :: (escapeKiss data ++ [0xC0])).dropLast = _
    rw [show (0x00 :: (escapeKiss data ++ [0xC0]))
        = (0x00 :: escapeKiss data) ++ [0xC0] from by simp]
    exact List.dropLast_concat ..
  rw [hframe, unescapeKiss]
  have hesc := escapeKiss_ne_nil data hne
  have hlen : 1 ≤ (escapeKiss data).length := List.length_pos.mpr hesc
  rw [if_neg (by simp only [List.length_cons]; omega)]
  rw [if_neg (by simp)]
  simp [unescapeLoop_escapeKiss]

/-- Witness for the amended KISS round-trip theorem on a payload with
boundary and escape bytes adjacent and at both ends. -/
theorem kiss_roundtrip_witness :
    unescapeKiss (((sendKissFrame [0xC0, 0xDB, 0xDB, 0xC0]).drop 1).dropLast)
      = some [0xC0, 0xDB, 0xDB, 0xC0] :=
  kiss_roundtrip [0xC0, 0xDB, 0xDB, 0xC0] (by decide) (by decide)

theorem decode_eq_of_valid (clock : Nat) (data : List Nat)
    (h1 : ¬ data.length < 26) (h2 : ¬ data.take 2 ≠ [0x52, 0x48])
    (h3 : ¬ beFold (data.drop (data.length - 2)) ≠ crc16 (data.take (data.length - 2))) :
    BeaconPacket.decode clock data = some (mkInit clock ((data.drop 4).take 16)
      (2 * (data.getD 3 0 / 2))
      (if data.getD 3 0 &&& 1 ≠ 0 ∧ 26 < data.length then
        (if 25 + data.getD 24 0 + 2 ≤ data.length then (data.drop 25).take (data.getD 24 0)
         else [])
       else [])
      (beFold ((data.drop 20).take 4))) := by
  simp only [BeaconPacket.decode, if_neg h1, if_neg h2, if_neg h3]

/-- C4: decode returns nothing exactly when the input is shorter than 26
bytes, the first two bytes differ from the magic marker, or the trailing
big-endian checksum differs from the CRC-16 of the preceding bytes; in
every other case a packet is returned; every returned packet has the
HAS_MESSAGE bit cleared in its flags; and when the raw HAS_MESSAGE bit is
set but the buffer cannot hold the declared length-prefixed message plus
checksum, the returned packet simply carries an empty message. -/
theorem decode_failure_characterization (clock : Nat) (data : List Nat) :
    (BeaconPacket.decode clock data = none ↔
      data.length < 26 ∨ data.take 2 ≠ [0x52, 0x48] ∨
        beFold (data.drop (data.length - 2)) ≠ crc16 (data.take (data.length - 2)))
    ∧ (∀ p, BeaconPacket.decode clock data = some p → p.flags % 2 = 0)
    ∧ (data.getD 3 0 &&& 1 ≠ 0 →
        ¬ (26 < data.length ∧ 25 + data.getD 24 0 + 2 ≤ data.length) →
        ∀ p, BeaconPacket.decode clock data = some p → p.message = []) := by
  by_cases h1 : data.length < 26
  · have hnone : BeaconPacket.decode clock data = none := by
      rw [BeaconPacket.decode, if_pos h1]
    rw [hnone]
    refine ⟨by simp [h1], ?_, ?_⟩
    · intro p hp
      exact absurd hp (by simp)
    · intro _ _ p hp
      exact absurd hp (by simp)
  · by_cases h2 : data.take 2 ≠ [0x52, 0x48]
    · have hnone : BeaconPacket.decode clock data = none := by
        rw [BeaconPacket.decode, if_neg h1, if_pos h2]
      rw [hnone]
      refine ⟨by simp [h1, h2], ?_, ?_⟩
      · intro p hp
        exact absurd hp (by simp)
      · intro _ _ p hp
        exact absurd hp (by simp)
    · by_cases h3 : beFold (data.drop (data.length - 2))
          ≠ crc16 (data.take (data.length - 2))
      · have hnone : BeaconPacket.decode clock data = none := by
          rw [BeaconPacket.decode, if_neg h1, if_neg h2, if_pos h3]
        rw [hnone]
        refine ⟨by simp [h1, h2, h3], ?_, ?_⟩
        · intro p hp
          exact absurd hp (by simp)
        · intro _ _ p hp
          exact absurd hp (by simp)
      · have hval := decode_eq_of_valid clock data h1 h2 h3
        rw [hval]
        refine ⟨by simp [h1, h2, h3], ?_, ?_⟩
        · intro p hp
          have hpe := Option.some.inj hp
          rw [← hpe]
          simp only [mkInit]
          omega
        · intro hbit hshort p hp
          have hpe := Option.some.inj hp
          rw [← hpe]
          simp only [mkInit]
          by_cases h26 : 26 < data.length
          · have hnle : ¬ 25 + data.getD 24 0 + 2 ≤ data.length := fun hx =>
              hshort ⟨h26, hx⟩
            rw [if_pos ⟨hbit, h26⟩, if_neg hnle]
            rfl
          · rw [if_neg (fun hc => h26 hc.2)]
            rfl

/-- Witness instance for the decode characterization at two concrete
inputs: an empty buffer (failure case) and a valid 26-byte packet whose
HAS_MESSAGE bit is set with no room for a message. -/
theorem decode_failure_characterization_witness :
    BeaconPacket.decode 0 [] = none
    ∧ (∀ p, BeaconPacket.decode 4 (BeaconPacket.encode (mkInit 3 [9] 5 [] 8)) = some p →
        p.flags % 2 = 0 ∧ p.message = []) := by
  constructor
  · exact ((decode_failure_characterization 0 []).1).mpr (Or.inl (by decide))
  · intro p hp
    refine ⟨(decode_failure_characterization 4 _).2.1 p hp, ?_⟩
    refine (decode_failure_characterization 4 _).2.2 (by decide) (by decide) p hp

/-- C10: decode is total on arbitrary input: the bounds-checked model
never reaches a failing access, and agrees with decode everywhere. -/
theorem decode_total (clock : Nat) (data : List Nat) :
    decodeChecked clock data = some (BeaconPacket.decode clock data) := by
  simp only [decodeChecked, BeaconPacket.decode]
  by_cases h1 : data.length < 26
  · rw [if_pos h1, if_pos h1]
  · rw [if_neg h1, if_neg h1]
    by_cases h2 : data.take 2 ≠ [0x52, 0x48]
    · rw [if_pos h2, if_pos h2]
    · rw [if_neg h2, if_neg h2]
      have hg1 : ¬ (data.drop (data.length - 2)).length ≠ 2 := by
        simp only [List.length_drop]
        omega
      rw [if_neg hg1]
      by_cases h3 : beFold (data.drop (data.length - 2))
          ≠ crc16 (data.take (data.length - 2))
      · rw [if_pos h3, if_pos h3]
      · rw [if_neg h3, if_neg h3]
        have hg2 : ¬ ¬ 2 < data.length := by omega
        have hg3 : ¬ ¬ 3 < data.length := by omega
        have hg4 : ¬ ((data.drop 20).take 4).length ≠ 4 := by
          simp only [List.length_take, List.length_drop]
          omega
        rw [if_neg hg2, if_neg hg3, if_neg hg4]
        by_cases hmsg : data.getD 3 0 &&& 1 ≠ 0 ∧ 26 < data.length
        · have hg5 : ¬ ¬ 24 < data.length := by omega
          rw [if_pos hmsg, if_pos hmsg, if_neg hg5]
        · rw [if_neg hmsg, if_neg hmsg]

theorem lookupPeer_map_update (m : PeerMap) (I : List Nat)
    (f : DiscoveredPeer → DiscoveredPeer) (old : DiscoveredPeer)
    (hold : lookupPeer m I = some old) :
    lookupPeer (m.map (fun kv => if kv.1 = I then (kv.1, f kv.2) else kv)) I
      = some (f old) := by
  induction m with
  | nil => simp [lookupPeer] at hold
  | cons kv rest ih =>
      by_cases hk : kv.1 = I
      · simp only [lookupPeer, if_pos hk] at hold
        simp only [List.map_cons, if_pos hk]
        simp [lookupPeer, hk, Option.some.inj hold]
      · simp only [lookupPeer, if_neg hk] at hold
        simp only [List.map_cons, if_neg hk]
        simp only [lookupPeer, if_neg hk]
        exact ih hold

theorem lookup_update_step (m : PeerMap) (pkt : BeaconPacket) (rx : Option ℚ) (now : ℚ)
    (old : DiscoveredPeer) (hold : lookupPeer m pkt.identity_hash = some old) :
    lookupPeer (updatePeerMap m pkt rx now) pkt.identity_hash
      = some (updateEntry old pkt rx now) := by
  rw [updatePeerMap, if_pos (by rw [hold]; rfl)]
  exact lookupPeer_map_update m _ (fun peer => updateEntry peer pkt rx now) old hold

theorem update_keys_of_mem (m : PeerMap) (pkt : BeaconPacket) (rx : Option ℚ) (now : ℚ)
    (hmem : (lookupPeer m pkt.identity_hash).isSome) :
    (updatePeerMap m pkt rx now).map Prod.fst = m.map Prod.fst := by
  rw [updatePeerMap, if_pos hmem, List.map_map]
  apply List.map_congr_left
  intro kv _
  by_cases hk : kv.1 = pkt.identity_hash <;> simp [hk]

/-- C5 counterexample to the claim as stated: updating an existing entry
with a packet whose message is empty keeps the old message (Python
`packet.message or peer.message`), so the stored message does not equal
the packet message. -/
theorem update_existing_message_cx :
    (lookupPeer (updatePeerMap [([1], ⟨[1], 0, 0, [104], 0, 3, none⟩)]
      ⟨[1], 2, [], 5⟩ none 7) [1]).map DiscoveredPeer.message ≠ some [] := by
  decide

/-- C5 (amended): updating an existing entry replaces its flags, sets
`last_seen` to the supplied clock, increments `rx_count` by one, creates
no new entry (the key sequence is unchanged), and replaces the message
only when the packet message is non-empty, keeping the old one
otherwise. -/
theorem update_existing_entry (m : PeerMap) (pkt : BeaconPacket) (rx : Option ℚ)
    (now : ℚ) (I : List Nat) (old : DiscoveredPeer) (hI : pkt.identity_hash = I)
    (hold : lookupPeer m I = some old) :
    lookupPeer (updatePeerMap m pkt rx now) I
        = some { old with
                 last_seen := now
                 message := if pkt.message ≠ [] then pkt.message else old.message
                 flags := pkt.flags
                 rx_count := old.rx_count + 1
                 last_rx_level := rx }
      ∧ (updatePeerMap m pkt rx now).map Prod.fst = m.map Prod.fst := by
  subst hI
  refine ⟨lookup_update_step m pkt rx now old hold, ?_⟩
  exact update_keys_of_mem m pkt rx now (by rw [hold]; rfl)

/-- Witness for the amended update theorem at a concrete registry. -/
theorem update_existing_entry_witness :
    lookupPeer (updatePeerMap [([2], ⟨[2], 1, 1, [7], 0, 4, none⟩)]
        ⟨[2], 9, [8], 5⟩ none 6) [2]
        = some ⟨[2], 1, 6, [8], 9, 5, none⟩
      ∧ (updatePeerMap [([2], ⟨[2], 1, 1, [7], 0, 4, none⟩)]
          ⟨[2], 9, [8], 5⟩ none 6).map Prod.fst
        = [[2]] := by
  have h := update_existing_entry [([2], ⟨[2], 1, 1, [7], 0, 4, none⟩)]
    ⟨[2], 9, [8], 5⟩ none 6 [2] ⟨[2], 1, 1, [7], 0, 4, none⟩ rfl (by decide)
  exact ⟨h.1.trans (by decide), h.2.trans (by decide)⟩

theorem applyUpdates_concat (m : PeerMap) (A : List (BeaconPacket × Option ℚ × ℚ))
    (x : BeaconPacket × Option ℚ × ℚ) :
    applyUpdates m (A ++ [x]) = updatePeerMap (applyUpdates m A) x.1 x.2.1 x.2.2 := by
  simp [applyUpdates, List.foldl_append]

theorem lookupPeer_append_single (m : PeerMap) (I : List Nat) (x : DiscoveredPeer)
    (h : lookupPeer m I = none) : lookupPeer (m ++ [(I, x)]) I = some x := by
  induction m with
  | nil => simp [lookupPeer]
  | cons kv rest ih =>
      by_cases hk : kv.1 = I
      · simp [lookupPeer, hk] at h
      · simp only [List.cons_append, lookupPeer, if_neg hk] at h ⊢
        exact ih h

theorem lookup_update_self (m : PeerMap) (pkt : BeaconPacket) (rx : Option ℚ) (now : ℚ) :
    ∃ p, lookupPeer (updatePeerMap m pkt rx now) pkt.identity_hash = some p
      ∧ p.last_seen = now := by
  cases hold : lookupPeer m pkt.identity_hash with
  | some old =>
      exact ⟨updateEntry old pkt rx now, lookup_update_step m pkt rx now old hold, rfl⟩
  | none =>
      refine ⟨freshPeer pkt rx now, ?_, rfl⟩
      rw [updatePeerMap, if_neg (by rw [hold]; simp)]
      exact lookupPeer_append_single m _ _ hold

/-- C6: across a sequence of update calls carrying the same identity and
non-decreasing clock readings, consecutive post-call registry states show
a strictly increasing `rx_count` and a non-decreasing `last_seen` for
that identity. -/
theorem registry_monotonic (m : PeerMap) (I : List Nat)
    (l : List (BeaconPacket × Option ℚ × ℚ))
    (hids : ∀ x ∈ l, x.1.identity_hash = I)
    (htimes : (l.map (fun x => x.2.2)).Chain' (· ≤ ·))
    (j : Nat) (hj : j + 1 < l.length) :
    ∃ p q, lookupPeer (applyUpdates m (l.take (j + 1))) I = some p
      ∧ lookupPeer (applyUpdates m (l.take (j + 2))) I = some q
      ∧ p.rx_count < q.rx_count ∧ p.last_seen ≤ q.last_seen := by
  have hj0 : j < l.length := by omega
  have hA : l.take (j + 1) = l.take j ++ [l[j]] := by
    rw [List.take_succ, List.getElem?_eq_getElem hj0]
    rfl
  have hB : l.take (j + 2) = l.take (j + 1) ++ [l[j + 1]] := by
    rw [List.take_succ, List.getElem?_eq_getElem hj]
    rfl
  have hidj : (l[j]).1.identity_hash = I := hids _ (List.getElem_mem hj0)
  have hidj1 : (l[j + 1]).1.identity_hash = I := hids _ (List.getElem_mem hj)
  obtain ⟨p, hp, hplast⟩ := lookup_update_self (applyUpdates m (l.take j)) (l[j]).1
    (l[j]).2.1 (l[j]).2.2
  rw [hidj] at hp
  have hpA : lookupPeer (applyUpdates m (l.take (j + 1))) I = some p := by
    rw [hA, applyUpdates_concat]
    exact hp
  have hq : lookupPeer (applyUpdates m (l.take (j + 2))) I
      = some (updateEntry p (l[j + 1]).1 (l[j + 1]).2.1 (l[j + 1]).2.2) := by
    rw [hB, applyUpdates_concat]
    have hstep := lookup_update_step (applyUpdates m (l.take (j + 1))) (l[j + 1]).1
      (l[j + 1]).2.1 (l[j + 1]).2.2 p (by rw [hidj1]; exact hpA)
    rw [hidj1] at hstep
    exact hstep
  refine ⟨p, _, hpA, hq, ?_, ?_⟩
  · simp [updateEntry]
  · have hlt : j < (l.map (fun x => x.2.2)).length - 1 := by
      simp only [List.length_map]
      omega
    have ht := List.chain'_iff_get.mp htimes j hlt
    simp only [List.get_eq_getElem, List.getElem_map] at ht
    rw [hplast]
    simp only [updateEntry]
    exact ht

/-- Witness for the registry monotonicity theorem on a two-update run. -/
theorem registry_monotonic_witness :
    ∃ p q, lookupPeer (applyUpdates []
        ([(⟨[3], 0, [], 5⟩, none, 1), (⟨[3], 0, [], 5⟩, none, 2)].take 1)) [3] = some p
      ∧ lookupPeer (applyUpdates []
          ([(⟨[3], 0, [], 5⟩, none, 1), (⟨[3], 0, [], 5⟩, none, 2)].take 2)) [3] = some q
      ∧ p.rx_count < q.rx_count ∧ p.last_seen ≤ q.last_seen :=
  registry_monotonic [] [3] [(⟨[3], 0, [], 5⟩, none, 1), (⟨[3], 0, [], 5⟩, none, 2)]
    (by decide) (by
      simp only [List.map_cons, List.map_nil, List.chain'_cons, List.chain'_singleton,
        and_true]
      norm_num) 0 (by decide)

theorem foldl_removal_pair (S : List (List Nat)) (c : Nat) (m0 : PeerMap) :
    S.foldl (fun acc k => (acc.1 + 1, acc.2.filter (fun kv => decide (kv.1 ≠ k)))) (c, m0)
      = (c + S.length,
         S.foldl (fun mm k => mm.filter (fun kv => decide (kv.1 ≠ k))) m0) := by
  induction S generalizing c m0 with
  | nil => simp
  | cons k S ih =>
      simp only [List.foldl_cons, List.length_cons]
      rw [ih]
      refine Prod.ext ?_ rfl
      simp
      omega

theorem foldl_removal_filter (S : List (List Nat)) (m0 : PeerMap) :
    S.foldl (fun mm k => mm.filter (fun kv => decide (kv.1 ≠ k))) m0
      = m0.filter (fun kv => decide (kv.1 ∉ S)) := by
  induction S generalizing m0 with
  | nil => simp
  | cons k S ih =>
      simp only [List.foldl_cons]
      rw [ih, List.filter_filter]
      apply List.filter_congr
      intro kv _
      simp [List.mem_cons, not_or]
      exact Bool.and_comm _ _

/-- C7: with distinct keys (a dict invariant), remove_stale deletes
exactly the entries whose age exceeds the retention window, leaves every
other entry unchanged and in order, and returns exactly the number of
entries deleted. -/
theorem remove_stale_spec (m : PeerMap) (maxAge now : ℚ)
    (hnd : (m.map Prod.fst).Nodup) :
    removeStale m maxAge now
      = ((m.filter (fun kv => decide (maxAge < now - kv.2.last_seen))).length,
         m.filter (fun kv => !decide (maxAge < now - kv.2.last_seen))) := by
  rw [removeStale]
  rw [foldl_removal_pair, foldl_removal_filter]
  refine Prod.ext (by simp) ?_
  apply List.filter_congr
  intro kv hkv
  have hinj := List.inj_on_of_nodup_map hnd
  by_cases hP : maxAge < now - kv.2.last_seen
  · have hmem : kv.1 ∈ (m.filter (fun kv => decide (maxAge < now - kv.2.last_seen))).map
        Prod.fst := by
      apply List.mem_map_of_mem
      rw [List.mem_filter]
      exact ⟨hkv, by simp [hP]⟩
    simp [hmem, hP]
  · have hnmem : kv.1 ∉ (m.filter (fun kv => decide (maxAge < now - kv.2.last_seen))).map
        Prod.fst := by
      intro hx
      rw [List.mem_map] at hx
      obtain ⟨kv2, hkv2mem, hkv2eq⟩ := hx
      rw [List.mem_filter] at hkv2mem
      have hkeq : kv2 = kv := hinj hkv2mem.1 hkv hkv2eq
      rw [hkeq] at hkv2mem
      simp at hkv2mem
      exact hP hkv2mem.2
    simp [hnmem, hP]

/-- Witness for the stale-sweep theorem: one of two entries exceeds the
7200-second window and is removed. -/
theorem remove_stale_spec_witness :
    removeStale [([1], ⟨[1], 0, 1000, [], 0, 1, none⟩), ([2], ⟨[2], 0, 9000, [], 0, 1, none⟩)]
        7200 10000
      = (1, [([2], ⟨[2], 0, 9000, [], 0, 1, none⟩)]) := by
  rw [remove_stale_spec _ _ _ (by decide)]
  norm_num [List.filter_cons, List.filter_nil]

/-- C3: with the hour schedule [0,6,12,18], target minute 0, duration
120 s and auto-switch on, the window predicate is true at 06:00:00 UTC
but already false at 06:01:59 UTC (and at 06:02:00): the code requires
the current minute to equal the target minute, so a duration beyond 60
seconds is cut off at the end of the target minute, contrary to the
configured 2-minute beacon stay the source documents. -/
theorem window_predicate_hour_schedule :
    inBeaconWindow {} ⟨6, 0, 0⟩ = true
    ∧ inBeaconWindow {} ⟨6, 1, 59⟩ = false
    ∧ inBeaconWindow {} ⟨6, 2, 0⟩ = false := by
  decide

/-- C9: with operating mode internet_only (and the adaptive sub-machine
off, as in the scenario), a scheduler step that observes a matching
beacon window while in the DATA (ARQ) state issues no command at all —
no mode switch, no transmit-window request, no transmission — and the
recorded runtime state stays DATA, whatever the transmit settings. -/
theorem internet_only_suppression (cfg : BeaconConfig) (env : ModemEnv) (now : UTCTime)
    (hop : cfg.operating_mode = "internet_only")
    (had : cfg.adaptive_mode = false)
    (hwin : inBeaconWindow cfg now = true) :
    schedulerStep cfg env Mode.arq now = (Mode.arq, []) := by
  simp [schedulerStep, enterBeaconMode, hop, had, hwin]

/-- Witness for the internet-only suppression theorem: default
configuration (transmission enabled) switched to internet_only, at
06:00:00 UTC inside the default window. -/
theorem internet_only_suppression_witness :
    schedulerStep { operating_mode := "internet_only" } ⟨true, true, none, none, 42⟩
        Mode.arq ⟨6, 0, 0⟩ = (Mode.arq, []) :=
  internet_only_suppression { operating_mode := "internet_only" }
    ⟨true, true, none, none, 42⟩ ⟨6, 0, 0⟩ rfl rfl (by decide)

end ReticulumHF
